import Mathlib

/-!
Shallow embedding of the staking predeploy encoder (src/staking.go).

Bytes are modelled as Lean lists of naturals (each produced byte is < 256).
Storage maps are association lists from 32-byte keys to 32-byte values,
mirroring the Go map with absent keys reading as the zero hash.
The keccak256 hash is an external primitive of the helper library; all
definitions take it as an explicit function parameter.
-/

/-- Fuel-driven worker for the big-endian minimal byte rendering of a natural
number, mirroring the semantics of the Bytes method of math/big Int (the
empty list for zero, no leading zero byte otherwise). -/
def natBytesAux : Nat → Nat → List Nat
  | 0, _ => []
  | fuel + 1, n => if n = 0 then [] else natBytesAux fuel (n / 256) ++ [n % 256]

/-- Big-endian minimal byte rendering of a natural number, the model of
the Bytes method of math/big Int applied to a non-negative value. -/
def natBytes (n : Nat) : List Nat :=
  natBytesAux n n

theorem natBytesAux_zero (fuel : Nat) : natBytesAux fuel 0 = [] := by
  cases fuel <;> simp [natBytesAux]

theorem natBytesAux_congr :
    ∀ f1 n, n ≤ f1 → ∀ f2, n ≤ f2 → natBytesAux f1 n = natBytesAux f2 n := by
  intro f1
  induction f1 with
  | zero =>
    intro n hn f2 _
    have : n = 0 := Nat.le_zero.mp hn
    subst this
    rw [natBytesAux_zero, natBytesAux_zero]
  | succ f ih =>
    intro n hn f2 hn2
    by_cases h : n = 0
    · subst h; rw [natBytesAux_zero, natBytesAux_zero]
    · obtain ⟨f2p, rfl⟩ : ∃ m, f2 = m + 1 := by
        cases f2 with
        | zero => omega
        | succ m => exact ⟨m, rfl⟩
      simp only [natBytesAux, h, if_false]
      have hd : n / 256 < n := Nat.div_lt_self (Nat.pos_of_ne_zero h) (by omega)
      rw [ih (n / 256) (by omega) f2p (by omega)]

/-- Unfolding equation for natBytes that hides the fuel. -/
theorem natBytes_eq (n : Nat) :
    natBytes n = if n = 0 then [] else natBytes (n / 256) ++ [n % 256] := by
  by_cases h : n = 0
  · subst h; simp [natBytes, natBytesAux_zero]
  · obtain ⟨m, rfl⟩ : ∃ m, n = m + 1 := by
      cases n with
      | zero => omega
      | succ m => exact ⟨m, rfl⟩
    simp only [natBytes, natBytesAux, h, if_false]
    have hd : (m + 1) / 256 < m + 1 := Nat.div_lt_self (by omega) (by omega)
    rw [natBytesAux_congr m ((m + 1) / 256) (by omega) ((m + 1) / 256) (by omega)]

/-- Big-endian unsigned interpretation of a byte list, the model of the
SetBytes method of math/big Int. -/
def bytesToNat (b : List Nat) : Nat :=
  b.foldl (fun a x => 256 * a + x) 0

theorem bytesToNat_nil : bytesToNat [] = 0 := rfl

theorem bytesToNat_foldl_acc (l : List Nat) :
    ∀ a, l.foldl (fun a x => 256 * a + x) a =
      a * 256 ^ l.length + l.foldl (fun a x => 256 * a + x) 0 := by
  induction l with
  | nil => intro a; simp
  | cons x t ih =>
    intro a
    simp only [List.foldl_cons, List.length_cons]
    rw [ih (256 * a + x), ih (256 * 0 + x)]
    ring

theorem bytesToNat_cons (x : Nat) (t : List Nat) :
    bytesToNat (x :: t) = x * 256 ^ t.length + bytesToNat t := by
  simp only [bytesToNat, List.foldl_cons]
  rw [bytesToNat_foldl_acc]
  ring_nf

theorem bytesToNat_append (l1 l2 : List Nat) :
    bytesToNat (l1 ++ l2) = bytesToNat l1 * 256 ^ l2.length + bytesToNat l2 := by
  simp only [bytesToNat, List.foldl_append]
  rw [bytesToNat_foldl_acc l2]

theorem bytesToNat_append_singleton (l : List Nat) (x : Nat) :
    bytesToNat (l ++ [x]) = 256 * bytesToNat l + x := by
  rw [bytesToNat_append]
  simp [bytesToNat]
  ring

theorem bytesToNat_natBytes (n : Nat) : bytesToNat (natBytes n) = n := by
  induction n using Nat.strong_induction_on with
  | _ n ih =>
    rw [natBytes_eq]
    by_cases h : n = 0
    · simp [h, bytesToNat_nil]
    · simp only [h, if_false]
      rw [bytesToNat_append_singleton, ih (n / 256) (Nat.div_lt_self (Nat.pos_of_ne_zero h) (by omega))]
      omega

theorem natBytes_lt (n : Nat) : ∀ x ∈ natBytes n, x < 256 := by
  induction n using Nat.strong_induction_on with
  | _ n ih =>
    rw [natBytes_eq]
    by_cases h : n = 0
    · simp [h]
    · simp only [h, if_false]
      intro x hx
      rcases List.mem_append.mp hx with h1 | h2
      · exact ih (n / 256) (Nat.div_lt_self (Nat.pos_of_ne_zero h) (by omega)) x h1
      · simp only [List.mem_singleton] at h2
        subst h2
        exact Nat.mod_lt _ (by omega)

theorem bytesToNat_lt (l : List Nat) (h : ∀ x ∈ l, x < 256) :
    bytesToNat l < 256 ^ l.length := by
  induction l with
  | nil => simp [bytesToNat_nil]
  | cons x t ih =>
    rw [bytesToNat_cons]
    have hx : x < 256 := h x (by simp)
    have ht : bytesToNat t < 256 ^ t.length := ih (fun y hy => h y (by simp [hy]))
    have : x * 256 ^ t.length + bytesToNat t < (x + 1) * 256 ^ t.length := by
      have := ht
      nlinarith [pow_pos (show 0 < 256 by omega) t.length]
    calc x * 256 ^ t.length + bytesToNat t < (x + 1) * 256 ^ t.length := this
      _ ≤ 256 * 256 ^ t.length := by
          have : x + 1 ≤ 256 := by omega
          exact Nat.mul_le_mul_right _ this
      _ = 256 ^ (t.length + 1) := by ring
      _ = 256 ^ (x :: t).length := by simp

theorem bytesToNat_replicate_zero_append (k : Nat) (l : List Nat) :
    bytesToNat (List.replicate k 0 ++ l) = bytesToNat l := by
  induction k with
  | zero => simp
  | succ m ih =>
    have : List.replicate (m + 1) 0 ++ l = 0 :: (List.replicate m 0 ++ l) := by
      simp [List.replicate_succ]
    rw [this, bytesToNat_cons, ih]
    simp

/-- Model of common.PadLeftOrTrim from the polygon-edge helpers: keep the
last size bytes when the input is longer, otherwise left-pad with zero
bytes up to size. -/
def padLeftOrTrim (b : List Nat) (size : Nat) : List Nat :=
  if size ≤ b.length then b.drop (b.length - size)
  else List.replicate (size - b.length) 0 ++ b

/-- Model of types.BytesToHash from the polygon-edge helpers: copy the last
min(32, length) bytes of the input into the tail of a zeroed 32-byte hash,
i.e. trim to the last 32 bytes and left-pad with zero bytes. -/
def bytesToHash (b : List Nat) : List Nat :=
  if 32 ≤ b.length then b.drop (b.length - 32)
  else List.replicate (32 - b.length) 0 ++ b

theorem bytesToHash_length (b : List Nat) : (bytesToHash b).length = 32 := by
  unfold bytesToHash
  by_cases h : 32 ≤ b.length <;> simp [h] <;> omega

theorem bytesToHash_eq_padLeftOrTrim (b : List Nat) :
    bytesToHash b = padLeftOrTrim b 32 := by
  unfold bytesToHash padLeftOrTrim
  rfl

theorem bytesToNat_bytesToHash (b : List Nat) (hb : ∀ x ∈ b, x < 256) :
    bytesToNat (bytesToHash b) = bytesToNat b % 2 ^ 256 := by
  have h256 : (256 : Nat) ^ 32 = 2 ^ 256 := by norm_num
  unfold bytesToHash
  by_cases h : 32 ≤ b.length
  · simp only [h, if_true]
    have hsplit : b = b.take (b.length - 32) ++ b.drop (b.length - 32) :=
      (List.take_append_drop _ b).symm
    have hdlen : (b.drop (b.length - 32)).length = 32 := by
      simp [List.length_drop]
      omega
    have hdval : bytesToNat (b.drop (b.length - 32)) < 2 ^ 256 := by
      have hlt := bytesToNat_lt (b.drop (b.length - 32))
        (fun x hx => hb x (List.mem_of_mem_drop hx))
      rw [hdlen, h256] at hlt
      exact hlt
    conv_rhs => rw [hsplit]
    rw [bytesToNat_append, hdlen, h256, Nat.add_comm, Nat.add_mul_mod_self_right,
      Nat.mod_eq_of_lt hdval]
  · simp only [h, if_false]
    rw [bytesToNat_replicate_zero_append]
    have : bytesToNat b < 2 ^ 256 := by
      have hlt : bytesToNat b < 256 ^ b.length := bytesToNat_lt b hb
      have : (256 : Nat) ^ b.length ≤ 256 ^ 32 := Nat.pow_le_pow_right (by omega) (by omega)
      omega
    exact (Nat.mod_eq_of_lt this).symm

/-- Left-padded 32-byte rendering of a natural number, the composition of
BytesToHash with the minimal big-endian byte rendering. It also models the
compositions StringToHash after EncodeBig and StringToHash after
EncodeUint64 of the polygon-edge helpers: EncodeBig and EncodeUint64 render
the minimal big-endian hex digits after a leading 0x, and StringToHash decodes
those digits back to (at most one zero byte plus) the minimal big-endian
bytes before left-padding to 32 bytes, so both compositions agree with
left-padding the minimal bytes. -/
def natToHash (n : Nat) : List Nat :=
  bytesToHash (natBytes n)

theorem bytesToNat_natToHash (n : Nat) :
    bytesToNat (natToHash n) = n % 2 ^ 256 := by
  unfold natToHash
  rw [bytesToNat_bytesToHash _ (natBytes_lt n), bytesToNat_natBytes]

theorem bytesToNat_natToHash_of_lt (n : Nat) (h : n < 2 ^ 256) :
    bytesToNat (natToHash n) = n := by
  rw [bytesToNat_natToHash, Nat.mod_eq_of_lt h]

/-- Model of the Go conversion int64(x) applied to a uint64 value: reduce
modulo 2 to the 64 and reinterpret the high range as negative. -/
def toInt64 (n : Nat) : Int :=
  if n % 2 ^ 64 < 2 ^ 63 then ((n % 2 ^ 64 : Nat) : Int)
  else ((n % 2 ^ 64 : Nat) : Int) - 2 ^ 64

/-- Model of getIndexWithOffset from src/staking.go: interpret the hash
bytes as an unsigned big integer with SetBytes, add big.NewInt(int64(offset))
(note the uint64 to int64 conversion performed by the source), and render
the result with the Bytes method, which drops the sign and any leading zero
bytes. -/
def getIndexWithOffset (keccakHash : List Nat) (offset : Nat) : List Nat :=
  natBytes (((bytesToNat keccakHash : Int) + toInt64 offset).natAbs)

theorem toInt64_of_lt (n : Nat) (h : n < 2 ^ 63) : toInt64 n = (n : Int) := by
  unfold toInt64
  have h64 : n % 2 ^ 64 = n := Nat.mod_eq_of_lt (by omega)
  rw [h64, if_pos h]

theorem getIndexWithOffset_of_lt (H : List Nat) (n : Nat) (h : n < 2 ^ 63) :
    getIndexWithOffset H n = natBytes (bytesToNat H + n) := by
  unfold getIndexWithOffset
  rw [toInt64_of_lt n h]
  congr 1

theorem bytesToNat_getIndexWithOffset (H : List Nat) (n : Nat) (h : n < 2 ^ 63) :
    bytesToNat (getIndexWithOffset H n) = bytesToNat H + n := by
  rw [getIndexWithOffset_of_lt H n h, bytesToNat_natBytes]

/-- Association-list model of the Go storage map from 32-byte keys to
32-byte values. Absent keys read as the zero hash, as for a Go map whose
value type is a fixed byte array. -/
abbrev StorageMap : Type :=
  List (List Nat × List Nat)

/-- Write of one key, replacing any previous binding for that key. -/
def smSet (m : StorageMap) (k v : List Nat) : StorageMap :=
  match m with
  | [] => [(k, v)]
  | (k0, v0) :: rest => if k0 = k then (k, v) :: rest else (k0, v0) :: smSet rest k v

/-- Read of one key, returning the zero hash when the key is absent. -/
def smGet (m : StorageMap) (k : List Nat) : List Nat :=
  match m with
  | [] => List.replicate 32 0
  | (k0, v0) :: rest => if k0 = k then v0 else smGet rest k

/-- Membership test for one key. -/
def smMem (m : StorageMap) (k : List Nat) : Bool :=
  match m with
  | [] => false
  | (k0, _) :: rest => k0 = k || smMem rest k

theorem smGet_nil (k : List Nat) : smGet [] k = List.replicate 32 0 := rfl

theorem smGet_smSet_self (m : StorageMap) (k v : List Nat) :
    smGet (smSet m k v) k = v := by
  induction m with
  | nil => simp [smSet, smGet]
  | cons kv rest ih =>
    obtain ⟨k0, v0⟩ := kv
    by_cases h : k0 = k
    · simp [smSet, smGet, h]
    · simp [smSet, smGet, h, ih]

theorem smGet_smSet_ne (m : StorageMap) (k v k2 : List Nat) (h : k ≠ k2) :
    smGet (smSet m k v) k2 = smGet m k2 := by
  induction m with
  | nil => simp [smSet, smGet, h]
  | cons kv rest ih =>
    obtain ⟨k0, v0⟩ := kv
    by_cases h0 : k0 = k
    · subst h0
      simp [smSet, smGet, h, ih]
    · simp only [smSet, h0, if_false]
      by_cases h2 : k0 = k2
      · simp [smGet, h2]
      · simp [smGet, h2, ih]

theorem smMem_smSet (m : StorageMap) (k v k2 : List Nat) :
    smMem (smSet m k v) k2 = (decide (k = k2) || smMem m k2) := by
  induction m with
  | nil => simp [smSet, smMem]
  | cons kv rest ih =>
    obtain ⟨k0, v0⟩ := kv
    by_cases h0 : k0 = k
    · subst h0
      simp [smSet, smMem]
    · simp only [smSet, h0, if_false, smMem, ih]
      by_cases h2 : k0 = k2
      · subst h2
        simp [show ¬ (k = k0) from fun hh => h0 hh.symm]
      · simp [h2]

theorem smMem_nil (k : List Nat) : smMem [] k = false := rfl

/-- Values stored in a map are 32 bytes long. -/
def smWF (m : StorageMap) : Prop :=
  ∀ kv ∈ m, (kv.2 : List Nat).length = 32

theorem smWF_nil : smWF [] := by
  intro kv h
  simp at h

theorem smWF_smSet (m : StorageMap) (k v : List Nat) (hm : smWF m)
    (hv : v.length = 32) : smWF (smSet m k v) := by
  induction m with
  | nil =>
    intro kv h
    simp [smSet] at h
    subst h
    exact hv
  | cons kv0 rest ih =>
    obtain ⟨k0, v0⟩ := kv0
    have hrest : smWF rest := fun kv h => hm kv (by simp [h])
    by_cases h0 : k0 = k
    · intro kv h
      simp only [smSet, h0, if_true] at h
      rcases List.mem_cons.mp h with h1 | h2
      · subst h1; exact hv
      · exact hm kv (by simp [h2])
    · intro kv h
      simp only [smSet, h0, if_false] at h
      rcases List.mem_cons.mp h with h1 | h2
      · subst h1; exact hm (k0, v0) (by simp)
      · exact ih hrest kv h2

theorem smGet_length (m : StorageMap) (k : List Nat) (hm : smWF m) :
    (smGet m k).length = 32 := by
  induction m with
  | nil => simp [smGet]
  | cons kv rest ih =>
    obtain ⟨k0, v0⟩ := kv
    by_cases h0 : k0 = k
    · simp only [smGet, h0, if_true]
      exact hm (k0, v0) (by simp)
    · simp only [smGet, h0, if_false]
      exact ih (fun kv h => hm kv (by simp [h]))

theorem getD_set_eq (l : List Nat) (j v : Nat) (h : j < l.length) :
    (l.set j v).getD j 0 = v := by
  induction l generalizing j with
  | nil => simp at h
  | cons x t ih =>
    cases j with
    | zero => simp [List.set]
    | succ j2 =>
      simp only [List.set, List.getD_cons_succ]
      exact ih j2 (by simpa using h)

theorem getD_set_ne (l : List Nat) (i j v : Nat) (h : i ≠ j) :
    (l.set i v).getD j 0 = l.getD j 0 := by
  induction l generalizing i j with
  | nil => simp [List.set]
  | cons x t ih =>
    cases i with
    | zero =>
      cases j with
      | zero => omega
      | succ j2 => simp [List.set]
    | succ i2 =>
      cases j with
      | zero => simp [List.set]
      | succ j2 =>
        simp only [List.set, List.getD_cons_succ]
        exact ih i2 j2 (by omega)

theorem getD_replicate_zero (n p : Nat) : (List.replicate n 0).getD p 0 = 0 := by
  induction n generalizing p with
  | zero => simp
  | succ m ih =>
    cases p with
    | zero => simp [List.replicate_succ]
    | succ p2 =>
      simp only [List.replicate_succ, List.getD_cons_succ]
      exact ih p2

/-- Slot 0 of the staking contract, the validators array (src/staking.go). -/
def validatorsSlot : Int := 0

/-- Slot 1, the address to isValidator mapping. -/
def addressToIsValidatorSlot : Int := 1

/-- Slot 2, the address to stakedAmount mapping. -/
def addressToStakedAmountSlot : Int := 2

/-- Slot 3, the address to validatorIndex mapping. -/
def addressToValidatorIndexSlot : Int := 3

/-- Slot 4, the total staked amount scalar. -/
def stakedAmountSlot : Int := 4

/-- Slot 5, the minimum validator count scalar. -/
def minNumValidatorSlot : Int := 5

/-- Slot 6, the maximum validator count scalar. -/
def maxNumValidatorSlot : Int := 6

/-- Slot 7, the address to BLS public key mapping. -/
def addressToBLSPublicKeySlot : Int := 7

/-- Model of getAddressMapping from src/staking.go: hash of the 32-byte
left-padded address followed by the 32-byte left-padded big-endian bytes of
big.NewInt(slot); the Bytes method of a big integer drops the sign, hence
the natAbs. The keccak256 primitive is passed in as a function. -/
def getAddressMapping (keccak : List Nat → List Nat)
    (address : List Nat) (slot : Int) : List Nat :=
  keccak (padLeftOrTrim address 32 ++ padLeftOrTrim (natBytes slot.natAbs) 32)

/-- Shallow model of a validators.Validator entry: its 20-byte address and,
for the BLS variant only, its BLS public key bytes. -/
structure Validator where
  addr : List Nat
  blsPublicKey : Option (List Nat)
deriving DecidableEq

/-- Model of the StorageIndexes wrapper from src/staking.go. -/
structure StorageIndexes where
  ValidatorsIndex : List Nat
  ValidatorBLSPublicKeyIndex : List Nat
  AddressToIsValidatorIndex : List Nat
  AddressToStakedAmountIndex : List Nat
  AddressToValidatorIndexIndex : List Nat
deriving DecidableEq

/-- Model of getStorageIndexes from src/staking.go: the four mapping keys
for slots 1, 2, 3 and 7, and the array element key obtained by offsetting
the hash of the 32-byte padded array slot by the validator position. -/
def getStorageIndexes (keccak : List Nat → List Nat)
    (validator : Validator) (index : Nat) : StorageIndexes :=
  { AddressToIsValidatorIndex :=
      getAddressMapping keccak validator.addr addressToIsValidatorSlot
    AddressToStakedAmountIndex :=
      getAddressMapping keccak validator.addr addressToStakedAmountSlot
    AddressToValidatorIndexIndex :=
      getAddressMapping keccak validator.addr addressToValidatorIndexSlot
    ValidatorBLSPublicKeyIndex :=
      getAddressMapping keccak validator.addr addressToBLSPublicKeySlot
    ValidatorsIndex :=
      getIndexWithOffset
        (keccak (padLeftOrTrim (natBytes validatorsSlot.natAbs) 32)) index }

/-- One iteration of the byte-copy loop of setBytesToStorage: byte i of the
payload is placed at position i mod 32 of the slot keyed by the zero index
hash offset by i div 32, reading the current slot value first so that bytes
already written to the same slot are kept. -/
def setBytesStep (zeroIndex data : List Nat) (m : StorageMap) (i : Nat) :
    StorageMap :=
  let slotIndex := bytesToHash (getIndexWithOffset zeroIndex (i / 32))
  smSet m slotIndex ((smGet m slotIndex).set (i % 32) (data.getD i 0))

/-- The byte-copy loop of setBytesToStorage run for indexes 0 to n - 1. -/
def setBytesLoop (zeroIndex data : List Nat) (m : StorageMap) (n : Nat) :
    StorageMap :=
  (List.range n).foldl (setBytesStep zeroIndex data) m

/-- Model of setBytesToStorage from src/staking.go. For payloads of at most
31 bytes a single slot at the base key holds the left-aligned payload with
the byte 2 times length at position 31; the byte conversions of the Go
source reduce modulo 256. For longer payloads the base key holds the byte
2 times length plus 1 at position 31 (again reduced modulo 256 by the byte
conversion) and the payload bytes are copied by the loop starting from the
hash of the base key bytes. -/
def setBytesToStorage (keccak : List Nat → List Nat) (storageMap : StorageMap)
    (baseIndexBytes data : List Nat) : StorageMap :=
  let dataLen := data.length
  let baseIndex := bytesToHash baseIndexBytes
  if dataLen ≤ 31 then
    smSet storageMap baseIndex
      ((data ++ List.replicate (32 - dataLen) 0).set 31 (dataLen * 2 % 256))
  else
    let baseSlot := (List.replicate 32 0).set 31 ((2 * dataLen + 1) % 256)
    let m1 := smSet storageMap baseIndex baseSlot
    setBytesLoop (keccak baseIndexBytes) data m1 dataLen

/-- Decoder following the slot rule stated by the specification for the
long form: byte i of the payload is read from position i mod 32 of the slot
keyed by the hash of the base key bytes offset by i div 32. -/
def decodeBytesFromStorage (keccak : List Nat → List Nat) (m : StorageMap)
    (baseIndexBytes : List Nat) (len : Nat) : List Nat :=
  (List.range len).map (fun i =>
    (smGet m (bytesToHash (getIndexWithOffset (keccak baseIndexBytes) (i / 32)))).getD
      (i % 32) 0)

theorem bytesToNat_slotKey (zeroIndex : List Nat) (o : Nat) (ho : o < 2 ^ 63) :
    bytesToNat (bytesToHash (getIndexWithOffset zeroIndex o)) =
      (bytesToNat zeroIndex + o) % 2 ^ 256 := by
  rw [getIndexWithOffset_of_lt zeroIndex o ho,
    bytesToNat_bytesToHash _ (natBytes_lt _), bytesToNat_natBytes]

theorem slotKey_inj (zeroIndex : List Nat) (o o2 : Nat)
    (ho : o < 2 ^ 63) (ho2 : o2 < 2 ^ 63)
    (h : bytesToHash (getIndexWithOffset zeroIndex o) =
      bytesToHash (getIndexWithOffset zeroIndex o2)) : o = o2 := by
  have hv : (bytesToNat zeroIndex + o) % 2 ^ 256 =
      (bytesToNat zeroIndex + o2) % 2 ^ 256 := by
    rw [← bytesToNat_slotKey zeroIndex o ho, ← bytesToNat_slotKey zeroIndex o2 ho2, h]
  have hme : o ≡ o2 [MOD 2 ^ 256] :=
    Nat.ModEq.add_left_cancel (Nat.ModEq.refl (bytesToNat zeroIndex)) hv
  have : o % 2 ^ 256 = o2 % 2 ^ 256 := hme
  rw [Nat.mod_eq_of_lt (by omega), Nat.mod_eq_of_lt (by omega)] at this
  exact this

theorem setBytesLoop_succ (zeroIndex data : List Nat) (m : StorageMap) (n : Nat) :
    setBytesLoop zeroIndex data m (n + 1) =
      setBytesStep zeroIndex data (setBytesLoop zeroIndex data m n) n := by
  unfold setBytesLoop
  rw [List.range_succ, List.foldl_append]
  rfl

theorem smWF_setBytesLoop (zeroIndex data : List Nat) (n : Nat) :
    ∀ m, smWF m → smWF (setBytesLoop zeroIndex data m n) := by
  induction n with
  | zero => intro m hm; exact hm
  | succ n2 ih =>
    intro m hm
    rw [setBytesLoop_succ]
    unfold setBytesStep
    apply smWF_smSet _ _ _ (ih m hm)
    rw [List.length_set]
    exact smGet_length _ _ (ih m hm)

theorem setBytesLoop_frame_byte (zeroIndex data : List Nat) (n : Nat)
    (k : List Nat) (p : Nat)
    (h : ∀ i, i < n → bytesToHash (getIndexWithOffset zeroIndex (i / 32)) = k →
      i % 32 ≠ p) :
    ∀ m, (smGet (setBytesLoop zeroIndex data m n) k).getD p 0 =
      (smGet m k).getD p 0 := by
  induction n with
  | zero => intro m; rfl
  | succ n2 ih =>
    intro m
    rw [setBytesLoop_succ]
    unfold setBytesStep
    by_cases hk : bytesToHash (getIndexWithOffset zeroIndex (n2 / 32)) = k
    · rw [hk, smGet_smSet_self, getD_set_ne _ _ _ _ (h n2 (by omega) hk)]
      exact ih (fun i hi hki => h i (by omega) hki) m
    · rw [smGet_smSet_ne _ _ _ _ hk]
      exact ih (fun i hi hki => h i (by omega) hki) m

theorem setBytesLoop_frame_slot (zeroIndex data : List Nat) (n : Nat)
    (k : List Nat)
    (h : ∀ i, i < n → bytesToHash (getIndexWithOffset zeroIndex (i / 32)) ≠ k) :
    ∀ m, smGet (setBytesLoop zeroIndex data m n) k = smGet m k := by
  induction n with
  | zero => intro m; rfl
  | succ n2 ih =>
    intro m
    rw [setBytesLoop_succ]
    unfold setBytesStep
    rw [smGet_smSet_ne _ _ _ _ (h n2 (by omega))]
    exact ih (fun i hi => h i (by omega)) m

theorem setBytesLoop_mem (zeroIndex data : List Nat) (n : Nat) (k : List Nat) :
    ∀ m, smMem m k = true → smMem (setBytesLoop zeroIndex data m n) k = true := by
  induction n with
  | zero => intro m hm; exact hm
  | succ n2 ih =>
    intro m hm
    rw [setBytesLoop_succ]
    unfold setBytesStep
    rw [smMem_smSet]
    simp [ih m hm]

theorem setBytesLoop_write (zeroIndex data : List Nat) :
    ∀ n, n ≤ 2 ^ 63 → ∀ i, i < n → ∀ m, smWF m →
      (smGet (setBytesLoop zeroIndex data m n)
        (bytesToHash (getIndexWithOffset zeroIndex (i / 32)))).getD (i % 32) 0 =
      data.getD i 0 := by
  intro n
  induction n with
  | zero => intro _ i hi; omega
  | succ n2 ih =>
    intro hn i hi m hm
    rw [setBytesLoop_succ]
    unfold setBytesStep
    by_cases heq : i = n2
    · subst heq
      rw [smGet_smSet_self, getD_set_eq]
      rw [smGet_length _ _ (smWF_setBytesLoop zeroIndex data _ m hm)]
      omega
    · have hi2 : i < n2 := by omega
      by_cases hk : bytesToHash (getIndexWithOffset zeroIndex (n2 / 32)) =
          bytesToHash (getIndexWithOffset zeroIndex (i / 32))
      · have hdiv : n2 / 32 = i / 32 :=
          slotKey_inj zeroIndex (n2 / 32) (i / 32)
            (by omega) (by omega) hk
        have hmod : n2 % 32 ≠ i % 32 := by omega
        rw [hk, smGet_smSet_self, getD_set_ne _ _ _ _ hmod]
        exact ih (by omega) i hi2 m hm
      · rw [smGet_smSet_ne _ _ _ _ hk]
        exact ih (by omega) i hi2 m hm

theorem setBytesToStorage_long (keccak : List Nat → List Nat) (m : StorageMap)
    (base data : List Nat) (h : ¬ data.length ≤ 31) :
    setBytesToStorage keccak m base data =
      setBytesLoop (keccak base) data
        (smSet m (bytesToHash base)
          ((List.replicate 32 0).set 31 ((2 * data.length + 1) % 256)))
        data.length := by
  unfold setBytesToStorage
  simp only [h, if_false]

theorem setBytesToStorage_frame (keccak : List Nat → List Nat) (m : StorageMap)
    (base data k : List Nat) (hbase : bytesToHash base ≠ k)
    (hdata : ∀ i, i < data.length →
      bytesToHash (getIndexWithOffset (keccak base) (i / 32)) ≠ k) :
    smGet (setBytesToStorage keccak m base data) k = smGet m k := by
  unfold setBytesToStorage
  by_cases h : data.length ≤ 31
  · simp only [h, if_true]
    exact smGet_smSet_ne _ _ _ _ hbase
  · simp only [h, if_false]
    rw [setBytesLoop_frame_slot _ _ _ _ hdata, smGet_smSet_ne _ _ _ _ hbase]

theorem setBytesToStorage_mem_base (keccak : List Nat → List Nat)
    (m : StorageMap) (base data : List Nat) :
    smMem (setBytesToStorage keccak m base data) (bytesToHash base) = true := by
  unfold setBytesToStorage
  by_cases h : data.length ≤ 31
  · simp only [h, if_true]
    rw [smMem_smSet]
    simp
  · simp only [h, if_false]
    apply setBytesLoop_mem
    rw [smMem_smSet]
    simp

theorem smWF_setBytesToStorage (keccak : List Nat → List Nat) (m : StorageMap)
    (base data : List Nat) (hm : smWF m) :
    smWF (setBytesToStorage keccak m base data) := by
  unfold setBytesToStorage
  by_cases h : data.length ≤ 31
  · simp only [h, if_true]
    apply smWF_smSet _ _ _ hm
    rw [List.length_set, List.length_append, List.length_replicate]
    omega
  · simp only [h, if_false]
    apply smWF_setBytesLoop
    apply smWF_smSet _ _ _ hm
    rw [List.length_set, List.length_replicate]

/-- Hex digit values of the DefaultStakedBalance constant of src/staking.go,
the string 0x8AC7230489E80000 without the leading 0x (10 ETH in wei). -/
def defaultStakedBalanceDigits : List Nat :=
  [8, 10, 12, 7, 2, 3, 0, 4, 8, 9, 14, 8, 0, 0, 0, 0]

/-- Big-endian value of a list of hex digit values. -/
def hexDigitsToNat (l : List Nat) : Nat :=
  l.foldl (fun a d => 16 * a + d) 0

/-- Modelled from the spec: types.ParseUint256orHex of the polygon-edge
helpers (not part of src/) parses a 0x-prefixed hex string and fails exactly
when the string is not a valid number or its value does not fit in 256 bits.
The string is modelled as its list of hex digit values. -/
def parseUint256orHex (digits : List Nat) : Except String Nat :=
  if digits.all (fun d => d < 16) && decide (hexDigitsToNat digits < 2 ^ 256) &&
      !digits.isEmpty then
    Except.ok (hexDigitsToNat digits)
  else
    Except.error "invalid uint256"

/-- The parsed numeric value of DefaultStakedBalance. -/
def defaultStakedBalanceVal : Nat :=
  hexDigitsToNat defaultStakedBalanceDigits

theorem defaultStakedBalanceVal_eq : defaultStakedBalanceVal = 10 * 10 ^ 18 := by
  decide

theorem parseUint256orHex_default :
    parseUint256orHex defaultStakedBalanceDigits =
      Except.ok defaultStakedBalanceVal := by
  rfl

/-- Model of the PredeployParams struct of src/staking.go; both counts are
unsigned 64-bit in the source. -/
structure PredeployParams where
  MinValidatorCount : Nat
  MaxValidatorCount : Nat
deriving DecidableEq

/-- Model of the chain.GenesisAccount fields the predeploy writes that are
in scope for the encoder specification: the storage map and the balance.
The bytecode blob assigned to the Code field is a fixed constant that the
specification excludes from scope. -/
structure GenesisAccount where
  Storage : StorageMap
  Balance : Nat
deriving DecidableEq

/-- Loop body of PredeployStakingSC for one validator at position idx: the
array element entry, the optional BLS public key packing, and the three
mapping entries for isValidator, stakedAmount and validatorIndex, written in
the order of the source. -/
def predeployStep (keccak : List Nat → List Nat) (dsb : Nat) (m : StorageMap)
    (iv : Nat × Validator) : StorageMap :=
  let idx := iv.1
  let validator := iv.2
  let si := getStorageIndexes keccak validator idx
  let m1 := smSet m (bytesToHash si.ValidatorsIndex) (bytesToHash validator.addr)
  let m2 := match validator.blsPublicKey with
    | some key => setBytesToStorage keccak m1 si.ValidatorBLSPublicKeyIndex key
    | none => m1
  let m3 := smSet m2 (bytesToHash si.AddressToIsValidatorIndex) (natToHash 1)
  let m4 := smSet m3 (bytesToHash si.AddressToStakedAmountIndex) (natToHash dsb)
  smSet m4 (bytesToHash si.AddressToValidatorIndexIndex) (natToHash idx)

/-- The validator loop of PredeployStakingSC: fold the step over the
indexed validator list, also accumulating the total staked amount. -/
def predeployFold (keccak : List Nat → List Nat) (dsb : Nat)
    (vals : List Validator) : StorageMap × Nat :=
  vals.enum.foldl
    (fun st iv => (predeployStep keccak dsb st.1 iv, st.2 + dsb)) ([], 0)

/-- Model of PredeployStakingSC from src/staking.go. A nil validators
interface is modelled as none; the uint64 min and max counts pass through
the int64 conversion of big.NewInt and the Bytes rendering drops the sign,
as in the source. The scalar slots 4, 0, 5 and 6 are written after the
loop, in the order of the source. -/
def PredeployStakingSC (keccak : List Nat → List Nat)
    (vals : Option (List Validator)) (params : PredeployParams) :
    Except String GenesisAccount :=
  match parseUint256orHex defaultStakedBalanceDigits with
  | Except.error e =>
      Except.error ("unable to generate DefaultStatkedBalance, " ++ e)
  | Except.ok bigDefaultStakedBalance =>
    let valsList := vals.getD []
    let valsLen := valsList.length
    let res := predeployFold keccak bigDefaultStakedBalance valsList
    let m0 := res.1
    let stakedAmount := res.2
    let m1 := smSet m0 (bytesToHash (natBytes stakedAmountSlot.natAbs))
      (natToHash stakedAmount)
    let m2 := smSet m1 (bytesToHash (natBytes validatorsSlot.natAbs))
      (natToHash valsLen)
    let m3 := smSet m2 (bytesToHash (natBytes minNumValidatorSlot.natAbs))
      (natToHash (toInt64 params.MinValidatorCount).natAbs)
    let m4 := smSet m3 (bytesToHash (natBytes maxNumValidatorSlot.natAbs))
      (natToHash (toInt64 params.MaxValidatorCount).natAbs)
    Except.ok { Storage := m4, Balance := stakedAmount }

theorem PredeployStakingSC_eq (keccak : List Nat → List Nat)
    (vals : Option (List Validator)) (params : PredeployParams) :
    PredeployStakingSC keccak vals params = Except.ok
      { Storage :=
          smSet (smSet (smSet (smSet
            (predeployFold keccak defaultStakedBalanceVal (vals.getD [])).1
            (bytesToHash (natBytes stakedAmountSlot.natAbs))
            (natToHash (predeployFold keccak defaultStakedBalanceVal (vals.getD [])).2))
            (bytesToHash (natBytes validatorsSlot.natAbs))
            (natToHash (vals.getD []).length))
            (bytesToHash (natBytes minNumValidatorSlot.natAbs))
            (natToHash (toInt64 params.MinValidatorCount).natAbs))
            (bytesToHash (natBytes maxNumValidatorSlot.natAbs))
            (natToHash (toInt64 params.MaxValidatorCount).natAbs),
        Balance := (predeployFold keccak defaultStakedBalanceVal (vals.getD [])).2 } :=
  rfl

theorem predeployFold_snd (keccak : List Nat → List Nat) (dsb : Nat)
    (vals : List Validator) :
    (predeployFold keccak dsb vals).2 = vals.length * dsb := by
  have general : ∀ (el : List (Nat × Validator)) (m : StorageMap) (s : Nat),
      (el.foldl (fun st iv => (predeployStep keccak dsb st.1 iv, st.2 + dsb))
        (m, s)).2 = s + el.length * dsb := by
    intro el
    induction el with
    | nil => intro m s; simp
    | cons hd tl ih =>
      intro m s
      simp only [List.foldl_cons, List.length_cons]
      rw [ih]
      ring
  unfold predeployFold
  rw [general]
  simp

/-- C9: for every keccak function, every validator list (including the nil
interface) and all parameters, PredeployStakingSC returns an account and no
error, because the only error branch would require the parse of the fixed
DefaultStakedBalance constant to fail, and that parse always succeeds. -/
theorem claim_C9_no_error (keccak : List Nat → List Nat)
    (vals : Option (List Validator)) (params : PredeployParams) :
    ∃ acc : GenesisAccount,
      PredeployStakingSC keccak vals params = Except.ok acc :=
  ⟨_, PredeployStakingSC_eq keccak vals params⟩

/-- C10: for every keccak function, every address and every slot number,
getAddressMapping hashes the absolute value of the slot, because the Bytes
method of big.NewInt(slot) drops the sign, so a negative slot collides with
the corresponding non-negative slot. -/
theorem claim_C10_negative_slot (keccak : List Nat → List Nat)
    (address : List Nat) (slot : Int) :
    getAddressMapping keccak address slot =
      getAddressMapping keccak address (-slot) := by
  unfold getAddressMapping
  rw [Int.natAbs_neg]

/-- C5 (counterexample): for the 32-byte hash of value 1 and the unsigned
64-bit offset 2 to the 63, the value returned by getIndexWithOffset is not
the hash value plus the offset, because the source converts the uint64
offset through int64 and the high range becomes negative. -/
theorem claim_C5_counterexample :
    bytesToNat (getIndexWithOffset (List.replicate 31 0 ++ [1]) (2 ^ 63)) ≠
      bytesToNat (List.replicate 31 0 ++ [1]) + 2 ^ 63 := by
  decide

/-- C5 (amended): for every hash and every offset below 2 to the 63 (the
range the int64 conversion of the source preserves, which covers every
offset the callers can produce), getIndexWithOffset interpreted as an
unsigned big-endian integer equals the value of the hash plus the offset,
with unbounded arithmetic and no truncation on carry. -/
theorem claim_C5_offset_value (H : List Nat) (n : Nat) (h : n < 2 ^ 63) :
    bytesToNat (getIndexWithOffset H n) = bytesToNat H + n :=
  bytesToNat_getIndexWithOffset H n h

theorem claim_C5_offset_value_witness :
    5 < 2 ^ 63 ∧
      bytesToNat (getIndexWithOffset (List.replicate 31 0 ++ [1]) 5) =
        bytesToNat (List.replicate 31 0 ++ [1]) + 5 :=
  ⟨by decide, claim_C5_offset_value (List.replicate 31 0 ++ [1]) 5 (by decide)⟩

/-- C6 (counterexample): at the zero 32-byte hash, getIndexWithOffset with
offset 0 does not return the input byte string, because the Bytes method of
a big integer drops leading zero bytes. -/
theorem claim_C6_counterexample :
    getIndexWithOffset (List.replicate 32 0) 0 ≠ List.replicate 32 0 := by
  decide

/-- C6 (amended): getIndexWithOffset at offset 0 equals the input as an
unsigned big-endian integer (the byte string is the input with leading zero
bytes trimmed), and for every offset n with 0 < n < 2 to the 63 the integer
value at offset n is the integer value at offset n - 1 plus 1. -/
theorem claim_C6_successor (H : List Nat) (n : Nat) (h0 : 0 < n)
    (h : n < 2 ^ 63) :
    bytesToNat (getIndexWithOffset H 0) = bytesToNat H ∧
      bytesToNat (getIndexWithOffset H n) =
        bytesToNat (getIndexWithOffset H (n - 1)) + 1 := by
  constructor
  · have h00 := bytesToNat_getIndexWithOffset H 0 (by norm_num)
    omega
  · have h1 := bytesToNat_getIndexWithOffset H n h
    have h2 := bytesToNat_getIndexWithOffset H (n - 1) (by omega)
    omega

theorem claim_C6_successor_witness :
    0 < 3 ∧ 3 < 2 ^ 63 ∧
      (bytesToNat (getIndexWithOffset (List.replicate 32 0) 0) =
          bytesToNat (List.replicate 32 0) ∧
        bytesToNat (getIndexWithOffset (List.replicate 32 0) 3) =
          bytesToNat (getIndexWithOffset (List.replicate 32 0) (3 - 1)) + 1) :=
  ⟨by decide, by decide,
    claim_C6_successor (List.replicate 32 0) 3 (by decide) (by decide)⟩

/-- C7: for every validator list of length n (bounded by the Go int range),
PredeployStakingSC stores at the slot 4 key exactly n times
DefaultStakedBalance, with no overflow, and sets the account balance to the
same sum. -/
theorem claim_C7_total_staked (keccak : List Nat → List Nat)
    (vals : Option (List Validator)) (params : PredeployParams)
    (hlen : (vals.getD []).length < 2 ^ 63) :
    ∃ acc : GenesisAccount,
      PredeployStakingSC keccak vals params = Except.ok acc ∧
      smGet acc.Storage (bytesToHash (natBytes stakedAmountSlot.natAbs)) =
        natToHash ((vals.getD []).length * defaultStakedBalanceVal) ∧
      bytesToNat
          (smGet acc.Storage (bytesToHash (natBytes stakedAmountSlot.natAbs))) =
        (vals.getD []).length * defaultStakedBalanceVal ∧
      acc.Balance = (vals.getD []).length * defaultStakedBalanceVal := by
  refine ⟨_, PredeployStakingSC_eq keccak vals params, ?_, ?_, ?_⟩
  · show smGet _ _ = _
    rw [smGet_smSet_ne _ _ _ _ (by decide), smGet_smSet_ne _ _ _ _ (by decide),
      smGet_smSet_ne _ _ _ _ (by decide), smGet_smSet_self,
      predeployFold_snd]
  · show bytesToNat (smGet _ _) = _
    rw [smGet_smSet_ne _ _ _ _ (by decide), smGet_smSet_ne _ _ _ _ (by decide),
      smGet_smSet_ne _ _ _ _ (by decide), smGet_smSet_self,
      predeployFold_snd]
    apply bytesToNat_natToHash_of_lt
    have h1 : (vals.getD []).length * defaultStakedBalanceVal <
        2 ^ 63 * defaultStakedBalanceVal := by
      apply Nat.mul_lt_mul_of_pos_right hlen
      rw [defaultStakedBalanceVal_eq]
      norm_num
    have h2 : 2 ^ 63 * defaultStakedBalanceVal < 2 ^ 256 := by
      rw [defaultStakedBalanceVal_eq]
      norm_num
    omega
  · show (predeployFold keccak defaultStakedBalanceVal (vals.getD [])).2 = _
    rw [predeployFold_snd]

theorem claim_C7_total_staked_witness :
    ((none : Option (List Validator)).getD []).length < 2 ^ 63 ∧
      ∃ acc : GenesisAccount,
        PredeployStakingSC (fun _ => []) none ⟨1, 5⟩ = Except.ok acc ∧
        smGet acc.Storage (bytesToHash (natBytes stakedAmountSlot.natAbs)) =
          natToHash (((none : Option (List Validator)).getD []).length *
            defaultStakedBalanceVal) ∧
        bytesToNat
            (smGet acc.Storage (bytesToHash (natBytes stakedAmountSlot.natAbs))) =
          ((none : Option (List Validator)).getD []).length *
            defaultStakedBalanceVal ∧
        acc.Balance = ((none : Option (List Validator)).getD []).length *
          defaultStakedBalanceVal :=
  ⟨by decide, claim_C7_total_staked (fun _ => []) none ⟨1, 5⟩ (by decide)⟩

/-- C8: with zero validators (nil interface or empty list) the produced
storage holds the zero value at the slot 0 key and at the slot 4 key, and
contains no other keys than the four fixed scalar slot keys 0, 4, 5 and 6,
in particular no hash-derived mapping entries. -/
theorem claim_C8_empty_set (keccak : List Nat → List Nat)
    (vals : Option (List Validator)) (params : PredeployParams)
    (hvals : vals = none ∨ vals = some []) :
    ∃ acc : GenesisAccount,
      PredeployStakingSC keccak vals params = Except.ok acc ∧
      smGet acc.Storage (bytesToHash (natBytes validatorsSlot.natAbs)) =
        List.replicate 32 0 ∧
      smGet acc.Storage (bytesToHash (natBytes stakedAmountSlot.natAbs)) =
        List.replicate 32 0 ∧
      ∀ k, smMem acc.Storage k = true →
        k = bytesToHash (natBytes validatorsSlot.natAbs) ∨
        k = bytesToHash (natBytes stakedAmountSlot.natAbs) ∨
        k = bytesToHash (natBytes minNumValidatorSlot.natAbs) ∨
        k = bytesToHash (natBytes maxNumValidatorSlot.natAbs) := by
  have hget : vals.getD [] = [] := by
    rcases hvals with h | h <;> subst h <;> rfl
  refine ⟨_, PredeployStakingSC_eq keccak vals params, ?_, ?_, ?_⟩
  · show smGet _ _ = _
    rw [hget]
    show smGet _ _ = _
    rw [smGet_smSet_ne _ _ _ _ (by decide), smGet_smSet_ne _ _ _ _ (by decide),
      smGet_smSet_self]
    decide
  · show smGet _ _ = _
    rw [hget]
    show smGet _ _ = _
    rw [smGet_smSet_ne _ _ _ _ (by decide), smGet_smSet_ne _ _ _ _ (by decide),
      smGet_smSet_ne _ _ _ _ (by decide), smGet_smSet_self, predeployFold_snd]
    decide
  · intro k hk
    rw [hget] at hk
    have hk2 : smMem (smSet (smSet (smSet (smSet
        (predeployFold keccak defaultStakedBalanceVal []).1
        (bytesToHash (natBytes stakedAmountSlot.natAbs))
        (natToHash (predeployFold keccak defaultStakedBalanceVal []).2))
        (bytesToHash (natBytes validatorsSlot.natAbs))
        (natToHash ([] : List Validator).length))
        (bytesToHash (natBytes minNumValidatorSlot.natAbs))
        (natToHash (toInt64 params.MinValidatorCount).natAbs))
        (bytesToHash (natBytes maxNumValidatorSlot.natAbs))
        (natToHash (toInt64 params.MaxValidatorCount).natAbs)) k = true := hk
    rw [smMem_smSet, smMem_smSet, smMem_smSet, smMem_smSet] at hk2
    have hnil : (predeployFold keccak defaultStakedBalanceVal []).1 = [] := rfl
    rw [hnil, smMem_nil] at hk2
    simp only [Bool.or_false, Bool.or_eq_true, decide_eq_true_eq] at hk2
    rcases hk2 with h | h | h | h
    · exact Or.inr (Or.inr (Or.inr h.symm))
    · exact Or.inr (Or.inr (Or.inl h.symm))
    · exact Or.inl h.symm
    · exact Or.inr (Or.inl h.symm)

theorem claim_C8_empty_set_witness :
    ((none : Option (List Validator)) = none ∨
        (none : Option (List Validator)) = some []) ∧
      ∃ acc : GenesisAccount,
        PredeployStakingSC (fun _ => []) none ⟨1, 5⟩ = Except.ok acc ∧
        smGet acc.Storage (bytesToHash (natBytes validatorsSlot.natAbs)) =
          List.replicate 32 0 ∧
        smGet acc.Storage (bytesToHash (natBytes stakedAmountSlot.natAbs)) =
          List.replicate 32 0 ∧
        ∀ k, smMem acc.Storage k = true →
          k = bytesToHash (natBytes validatorsSlot.natAbs) ∨
          k = bytesToHash (natBytes stakedAmountSlot.natAbs) ∨
          k = bytesToHash (natBytes minNumValidatorSlot.natAbs) ∨
          k = bytesToHash (natBytes maxNumValidatorSlot.natAbs) :=
  ⟨Or.inl rfl, claim_C8_empty_set (fun _ => []) none ⟨1, 5⟩ (Or.inl rfl)⟩

theorem take_set_of_le (l : List Nat) (i v n : Nat) (h : n ≤ i) :
    (l.set i v).take n = l.take n := by
  induction l generalizing i n with
  | nil => simp
  | cons x t ih =>
    cases i with
    | zero =>
      have : n = 0 := by omega
      subst this
      simp
    | succ i2 =>
      cases n with
      | zero => simp
      | succ n2 =>
        show (x :: t.set i2 v).take (n2 + 1) = (x :: t).take (n2 + 1)
        rw [List.take_succ_cons, List.take_succ_cons, ih i2 n2 (by omega)]

theorem getD_append_right_zero (l1 l2 : List Nat) (j : Nat)
    (h : l1.length ≤ j) : (l1 ++ l2).getD j 0 = l2.getD (j - l1.length) 0 := by
  induction l1 generalizing j with
  | nil => simp
  | cons x t ih =>
    cases j with
    | zero => simp at h
    | succ j2 =>
      show (x :: (t ++ l2)).getD (j2 + 1) 0 = _
      rw [List.getD_cons_succ, ih j2 (by simpa using h)]
      simp

theorem getD_append_left_zero (l1 l2 : List Nat) (j : Nat)
    (h : j < l1.length) : (l1 ++ l2).getD j 0 = l1.getD j 0 := by
  induction l1 generalizing j with
  | nil => simp at h
  | cons x t ih =>
    cases j with
    | zero => simp
    | succ j2 =>
      show (x :: (t ++ l2)).getD (j2 + 1) 0 = _
      rw [List.getD_cons_succ, List.getD_cons_succ, ih j2 (by simpa using h)]

/-- C4: for every payload of at most 31 bytes, setBytesToStorage writes
exactly one entry at the base key, a 32-byte value with the payload left
aligned in the first length bytes, zero bytes between the payload and the
flag, and the last byte equal to twice the length. -/
theorem claim_C4_short_form (keccak : List Nat → List Nat) (m : StorageMap)
    (base data : List Nat) (h : data.length ≤ 31) :
    ∃ v : List Nat,
      setBytesToStorage keccak m base data = smSet m (bytesToHash base) v ∧
      v.length = 32 ∧
      v.take data.length = data ∧
      (∀ j, data.length ≤ j → j < 31 → v.getD j 0 = 0) ∧
      v.getD 31 0 = data.length * 2 := by
  refine ⟨(data ++ List.replicate (32 - data.length) 0).set 31
    (data.length * 2 % 256), ?_, ?_, ?_, ?_, ?_⟩
  · unfold setBytesToStorage
    simp only [h, if_true]
  · rw [List.length_set, List.length_append, List.length_replicate]
    omega
  · rw [take_set_of_le _ _ _ _ (by omega)]
    have hlen : data.length ≤ data.length := le_refl _
    calc (data ++ List.replicate (32 - data.length) 0).take data.length
        = data.take data.length := by
          rw [List.take_append_of_le_length hlen]
      _ = data := List.take_length data
  · intro j hj1 hj2
    rw [getD_set_ne _ _ _ _ (by omega),
      getD_append_right_zero _ _ _ hj1, getD_replicate_zero]
  · rw [getD_set_eq]
    · exact Nat.mod_eq_of_lt (by omega)
    · rw [List.length_append, List.length_replicate]
      omega

theorem claim_C4_short_form_witness :
    ([5, 6] : List Nat).length ≤ 31 ∧
      ∃ v : List Nat,
        setBytesToStorage (fun _ => []) [] [1] [5, 6] =
          smSet [] (bytesToHash [1]) v ∧
        v.length = 32 ∧
        v.take ([5, 6] : List Nat).length = [5, 6] ∧
        (∀ j, ([5, 6] : List Nat).length ≤ j → j < 31 → v.getD j 0 = 0) ∧
        v.getD 31 0 = ([5, 6] : List Nat).length * 2 :=
  ⟨by decide, claim_C4_short_form (fun _ => []) [] [1] [5, 6] (by decide)⟩

set_option maxRecDepth 100000 in
/-- C2: at a payload of 128 bytes the base slot of the long form stores the
single byte of 2 times 128 plus 1 reduced modulo 256, that is the value 1,
instead of the true length flag 257 required by the storage layout
convention the encoder must reproduce; the byte conversion of the source
truncates the flag for every payload of 128 bytes or more. -/
theorem claim_C2_flag_truncated :
    bytesToNat (smGet (setBytesToStorage (fun _ => List.replicate 32 9) [] [0]
        (List.replicate 128 5)) (bytesToHash [0])) = 1 ∧
      (1 : Nat) ≠ 2 * (List.replicate 128 5 : List Nat).length + 1 := by
  constructor
  · decide
  · decide

theorem map_getD_range (l : List Nat) :
    (List.range l.length).map (fun i => l.getD i 0) = l := by
  induction l with
  | nil => simp
  | cons x t ih =>
    rw [List.length_cons, List.range_succ_eq_map, List.map_cons, List.map_map]
    have hfun : ((fun i => (x :: t).getD i 0) ∘ Nat.succ) =
        (fun i => t.getD i 0) := by
      funext i
      simp only [Function.comp_apply]
      rw [show Nat.succ i = i + 1 from rfl, List.getD_cons_succ]
    rw [hfun, ih]
    simp

/-- C3: for every payload of 32 bytes or more (its length bounded by the Go
int range) written into the empty map, every payload byte i sits at byte
position i mod 32 of the slot keyed by the hash of the base key bytes offset
by i div 32, the unfilled tail bytes of the last slot are zero provided that
slot key differs from the base key, bytes for the same slot accumulate
without clobbering each other, and decoding by the same slot rule returns
the exact payload. -/
theorem claim_C3_long_form (keccak : List Nat → List Nat) (base data : List Nat)
    (h32 : 32 ≤ data.length) (h63 : data.length < 2 ^ 63)
    (hlast :
      bytesToHash (getIndexWithOffset (keccak base) ((data.length - 1) / 32)) ≠
        bytesToHash base) :
    (∀ i, i < data.length →
      (smGet (setBytesToStorage keccak [] base data)
        (bytesToHash (getIndexWithOffset (keccak base) (i / 32)))).getD
          (i % 32) 0 =
        data.getD i 0) ∧
    (∀ j, (data.length - 1) % 32 < j → j < 32 →
      (smGet (setBytesToStorage keccak [] base data)
        (bytesToHash (getIndexWithOffset (keccak base)
          ((data.length - 1) / 32)))).getD j 0 = 0) ∧
    decodeBytesFromStorage keccak (setBytesToStorage keccak [] base data) base
      data.length = data := by
  have hnot : ¬ data.length ≤ 31 := by omega
  have hwf1 : smWF (smSet [] (bytesToHash base)
      ((List.replicate 32 0).set 31 ((2 * data.length + 1) % 256))) := by
    apply smWF_smSet _ _ _ smWF_nil
    rw [List.length_set, List.length_replicate]
  have hplace : ∀ i, i < data.length →
      (smGet (setBytesToStorage keccak [] base data)
        (bytesToHash (getIndexWithOffset (keccak base) (i / 32)))).getD
          (i % 32) 0 =
        data.getD i 0 := by
    intro i hi
    rw [setBytesToStorage_long keccak [] base data hnot]
    exact setBytesLoop_write (keccak base) data data.length (by omega) i hi _ hwf1
  refine ⟨hplace, ?_, ?_⟩
  · intro j hj1 hj2
    rw [setBytesToStorage_long keccak [] base data hnot]
    rw [setBytesLoop_frame_byte (keccak base) data data.length _ j ?_]
    · rw [smGet_smSet_ne _ _ _ _ hlast.symm, smGet_nil, getD_replicate_zero]
    · intro i hi hk
      have hdiv : i / 32 = (data.length - 1) / 32 :=
        slotKey_inj (keccak base) (i / 32) ((data.length - 1) / 32)
          (by omega) (by omega) hk
      omega
  · unfold decodeBytesFromStorage
    have hcong : ∀ i ∈ List.range data.length,
        (smGet (setBytesToStorage keccak [] base data)
          (bytesToHash (getIndexWithOffset (keccak base) (i / 32)))).getD
            (i % 32) 0 =
          data.getD i 0 := by
      intro i hi
      exact hplace i (List.mem_range.mp hi)
    rw [List.map_congr_left hcong, map_getD_range]

theorem claim_C3_long_form_witness :
    32 ≤ (List.replicate 33 5 : List Nat).length ∧
      (List.replicate 33 5 : List Nat).length < 2 ^ 63 ∧
      bytesToHash (getIndexWithOffset ((fun _ => List.replicate 32 7) [1])
          (((List.replicate 33 5 : List Nat).length - 1) / 32)) ≠
        bytesToHash [1] ∧
      ((∀ i, i < (List.replicate 33 5 : List Nat).length →
        (smGet (setBytesToStorage (fun _ => List.replicate 32 7) [] [1]
            (List.replicate 33 5))
          (bytesToHash (getIndexWithOffset ((fun _ => List.replicate 32 7) [1])
            (i / 32)))).getD (i % 32) 0 =
          (List.replicate 33 5 : List Nat).getD i 0) ∧
      (∀ j, ((List.replicate 33 5 : List Nat).length - 1) % 32 < j → j < 32 →
        (smGet (setBytesToStorage (fun _ => List.replicate 32 7) [] [1]
            (List.replicate 33 5))
          (bytesToHash (getIndexWithOffset ((fun _ => List.replicate 32 7) [1])
            (((List.replicate 33 5 : List Nat).length - 1) / 32)))).getD j 0 =
          0) ∧
      decodeBytesFromStorage (fun _ => List.replicate 32 7)
        (setBytesToStorage (fun _ => List.replicate 32 7) [] [1]
          (List.replicate 33 5)) [1]
        (List.replicate 33 5 : List Nat).length = List.replicate 33 5) :=
  ⟨by decide, by decide, by decide,
    claim_C3_long_form (fun _ => List.replicate 32 7) [1] (List.replicate 33 5)
      (by decide) (by decide) (by decide)⟩

/-- C1: for a validator with a 20-byte address at 0-based position idx, the
loop body of PredeployStakingSC run on getStorageIndexes produces exactly
the five entries of the schema, assuming the five derived 32-byte keys do
not collide (the collision freedom the specification itself assumes of the
hash): the array element key, derived by offsetting the hash of the padded
slot 0 by idx, holds the address left-padded to 32 bytes; the slot 1
mapping key holds 1; the slot 2 mapping key holds the staked balance; the
slot 3 mapping key holds idx; and the slot 7 mapping key is written through
setBytesToStorage with the BLS public key exactly when the validator
carries one, a validator without one producing no entry at that key. -/
theorem claim_C1_validator_entries (keccak : List Nat → List Nat)
    (v : Validator) (idx dsb : Nat) (haddr : v.addr.length = 20)
    (h1v : bytesToHash (getStorageIndexes keccak v idx).AddressToIsValidatorIndex ≠
      bytesToHash (getStorageIndexes keccak v idx).ValidatorsIndex)
    (h2v : bytesToHash (getStorageIndexes keccak v idx).AddressToStakedAmountIndex ≠
      bytesToHash (getStorageIndexes keccak v idx).ValidatorsIndex)
    (h3v : bytesToHash (getStorageIndexes keccak v idx).AddressToValidatorIndexIndex ≠
      bytesToHash (getStorageIndexes keccak v idx).ValidatorsIndex)
    (h7v : bytesToHash (getStorageIndexes keccak v idx).ValidatorBLSPublicKeyIndex ≠
      bytesToHash (getStorageIndexes keccak v idx).ValidatorsIndex)
    (h21 : bytesToHash (getStorageIndexes keccak v idx).AddressToStakedAmountIndex ≠
      bytesToHash (getStorageIndexes keccak v idx).AddressToIsValidatorIndex)
    (h31 : bytesToHash (getStorageIndexes keccak v idx).AddressToValidatorIndexIndex ≠
      bytesToHash (getStorageIndexes keccak v idx).AddressToIsValidatorIndex)
    (h32k : bytesToHash (getStorageIndexes keccak v idx).AddressToValidatorIndexIndex ≠
      bytesToHash (getStorageIndexes keccak v idx).AddressToStakedAmountIndex)
    (h17 : bytesToHash (getStorageIndexes keccak v idx).AddressToIsValidatorIndex ≠
      bytesToHash (getStorageIndexes keccak v idx).ValidatorBLSPublicKeyIndex)
    (h27 : bytesToHash (getStorageIndexes keccak v idx).AddressToStakedAmountIndex ≠
      bytesToHash (getStorageIndexes keccak v idx).ValidatorBLSPublicKeyIndex)
    (h37 : bytesToHash (getStorageIndexes keccak v idx).AddressToValidatorIndexIndex ≠
      bytesToHash (getStorageIndexes keccak v idx).ValidatorBLSPublicKeyIndex)
    (hdata : ∀ i, i < (v.blsPublicKey.getD []).length →
      bytesToHash (getIndexWithOffset
        (keccak (getStorageIndexes keccak v idx).ValidatorBLSPublicKeyIndex)
        (i / 32)) ≠
      bytesToHash (getStorageIndexes keccak v idx).ValidatorsIndex) :
    ((getStorageIndexes keccak v idx).AddressToIsValidatorIndex =
        getAddressMapping keccak v.addr addressToIsValidatorSlot ∧
      (getStorageIndexes keccak v idx).AddressToStakedAmountIndex =
        getAddressMapping keccak v.addr addressToStakedAmountSlot ∧
      (getStorageIndexes keccak v idx).AddressToValidatorIndexIndex =
        getAddressMapping keccak v.addr addressToValidatorIndexSlot ∧
      (getStorageIndexes keccak v idx).ValidatorBLSPublicKeyIndex =
        getAddressMapping keccak v.addr addressToBLSPublicKeySlot ∧
      (getStorageIndexes keccak v idx).ValidatorsIndex =
        getIndexWithOffset
          (keccak (padLeftOrTrim (natBytes validatorsSlot.natAbs) 32)) idx) ∧
    smGet (predeployStep keccak dsb [] (idx, v))
        (bytesToHash (getStorageIndexes keccak v idx).ValidatorsIndex) =
      List.replicate 12 0 ++ v.addr ∧
    smGet (predeployStep keccak dsb [] (idx, v))
        (bytesToHash (getStorageIndexes keccak v idx).AddressToIsValidatorIndex) =
      natToHash 1 ∧
    smGet (predeployStep keccak dsb [] (idx, v))
        (bytesToHash (getStorageIndexes keccak v idx).AddressToStakedAmountIndex) =
      natToHash dsb ∧
    smGet (predeployStep keccak dsb [] (idx, v))
        (bytesToHash (getStorageIndexes keccak v idx).AddressToValidatorIndexIndex) =
      natToHash idx ∧
    smMem (predeployStep keccak dsb [] (idx, v))
        (bytesToHash (getStorageIndexes keccak v idx).ValidatorBLSPublicKeyIndex) =
      v.blsPublicKey.isSome ∧
    (v.blsPublicKey.isSome = true →
      smGet (predeployStep keccak dsb [] (idx, v))
          (bytesToHash (getStorageIndexes keccak v idx).ValidatorBLSPublicKeyIndex) =
        smGet (setBytesToStorage keccak
          (smSet [] (bytesToHash (getStorageIndexes keccak v idx).ValidatorsIndex)
            (bytesToHash v.addr))
          (getStorageIndexes keccak v idx).ValidatorBLSPublicKeyIndex
          (v.blsPublicKey.getD [])) (bytesToHash
            (getStorageIndexes keccak v idx).ValidatorBLSPublicKeyIndex)) := by
  have haddr32 : bytesToHash v.addr = List.replicate 12 0 ++ v.addr := by
    unfold bytesToHash
    rw [haddr]
    norm_num
  refine ⟨⟨rfl, rfl, rfl, rfl, rfl⟩, ?_, ?_, ?_, ?_, ?_, ?_⟩
  · cases hbls : v.blsPublicKey with
    | none =>
      simp only [predeployStep, hbls]
      rw [smGet_smSet_ne _ _ _ _ h3v, smGet_smSet_ne _ _ _ _ h2v,
        smGet_smSet_ne _ _ _ _ h1v, smGet_smSet_self, haddr32]
    | some key =>
      simp only [predeployStep, hbls]
      rw [smGet_smSet_ne _ _ _ _ h3v, smGet_smSet_ne _ _ _ _ h2v,
        smGet_smSet_ne _ _ _ _ h1v]
      rw [setBytesToStorage_frame _ _ _ _ _ h7v ?_]
      · rw [smGet_smSet_self, haddr32]
      · intro i hi
        apply hdata
        rw [hbls]
        simpa using hi
  · cases hbls : v.blsPublicKey with
    | none =>
      simp only [predeployStep, hbls]
      rw [smGet_smSet_ne _ _ _ _ h31, smGet_smSet_ne _ _ _ _ h21,
        smGet_smSet_self]
    | some key =>
      simp only [predeployStep, hbls]
      rw [smGet_smSet_ne _ _ _ _ h31, smGet_smSet_ne _ _ _ _ h21,
        smGet_smSet_self]
  · cases hbls : v.blsPublicKey with
    | none =>
      simp only [predeployStep, hbls]
      rw [smGet_smSet_ne _ _ _ _ h32k, smGet_smSet_self]
    | some key =>
      simp only [predeployStep, hbls]
      rw [smGet_smSet_ne _ _ _ _ h32k, smGet_smSet_self]
  · cases hbls : v.blsPublicKey with
    | none =>
      simp only [predeployStep, hbls]
      rw [smGet_smSet_self]
    | some key =>
      simp only [predeployStep, hbls]
      rw [smGet_smSet_self]
  · cases hbls : v.blsPublicKey with
    | none =>
      simp only [predeployStep, hbls, Option.isSome_none]
      rw [smMem_smSet, smMem_smSet, smMem_smSet, smMem_smSet, smMem_nil]
      rw [decide_eq_false h37, decide_eq_false h27, decide_eq_false h17,
        decide_eq_false (Ne.symm h7v)]
      rfl
    | some key =>
      simp only [predeployStep, hbls, Option.isSome_some]
      rw [smMem_smSet, smMem_smSet, smMem_smSet]
      rw [setBytesToStorage_mem_base]
      simp
  · cases hbls : v.blsPublicKey with
    | none =>
      intro hcontra
      simp at hcontra
    | some key =>
      intro _
      simp only [predeployStep, hbls, Option.getD_some]
      rw [smGet_smSet_ne _ _ _ _ h37, smGet_smSet_ne _ _ _ _ h27,
        smGet_smSet_ne _ _ _ _ h17]

/-- Concrete stand-in for the keccak256 primitive used by witnesses: it
keeps the last 32 bytes left-padded, which keeps the derived keys of the
witness validator pairwise distinct. -/
def wKeccak : List Nat → List Nat :=
  fun b => bytesToHash b

/-- Concrete witness validator with a BLS public key. -/
def wValidator : Validator :=
  { addr := List.replicate 20 17, blsPublicKey := some [1, 2, 3, 4, 5] }

theorem claim_C1_validator_entries_witness :
    wValidator.addr.length = 20 ∧
    bytesToHash (getStorageIndexes wKeccak wValidator 0).AddressToIsValidatorIndex ≠
      bytesToHash (getStorageIndexes wKeccak wValidator 0).ValidatorsIndex ∧
    bytesToHash (getStorageIndexes wKeccak wValidator 0).AddressToStakedAmountIndex ≠
      bytesToHash (getStorageIndexes wKeccak wValidator 0).ValidatorsIndex ∧
    bytesToHash (getStorageIndexes wKeccak wValidator 0).AddressToValidatorIndexIndex ≠
      bytesToHash (getStorageIndexes wKeccak wValidator 0).ValidatorsIndex ∧
    bytesToHash (getStorageIndexes wKeccak wValidator 0).ValidatorBLSPublicKeyIndex ≠
      bytesToHash (getStorageIndexes wKeccak wValidator 0).ValidatorsIndex ∧
    bytesToHash (getStorageIndexes wKeccak wValidator 0).AddressToStakedAmountIndex ≠
      bytesToHash (getStorageIndexes wKeccak wValidator 0).AddressToIsValidatorIndex ∧
    bytesToHash (getStorageIndexes wKeccak wValidator 0).AddressToValidatorIndexIndex ≠
      bytesToHash (getStorageIndexes wKeccak wValidator 0).AddressToIsValidatorIndex ∧
    bytesToHash (getStorageIndexes wKeccak wValidator 0).AddressToValidatorIndexIndex ≠
      bytesToHash (getStorageIndexes wKeccak wValidator 0).AddressToStakedAmountIndex ∧
    bytesToHash (getStorageIndexes wKeccak wValidator 0).AddressToIsValidatorIndex ≠
      bytesToHash (getStorageIndexes wKeccak wValidator 0).ValidatorBLSPublicKeyIndex ∧
    bytesToHash (getStorageIndexes wKeccak wValidator 0).AddressToStakedAmountIndex ≠
      bytesToHash (getStorageIndexes wKeccak wValidator 0).ValidatorBLSPublicKeyIndex ∧
    bytesToHash (getStorageIndexes wKeccak wValidator 0).AddressToValidatorIndexIndex ≠
      bytesToHash (getStorageIndexes wKeccak wValidator 0).ValidatorBLSPublicKeyIndex ∧
    (∀ i, i < (wValidator.blsPublicKey.getD []).length →
      bytesToHash (getIndexWithOffset
        (wKeccak (getStorageIndexes wKeccak wValidator 0).ValidatorBLSPublicKeyIndex)
        (i / 32)) ≠
      bytesToHash (getStorageIndexes wKeccak wValidator 0).ValidatorsIndex) ∧
    (((getStorageIndexes wKeccak wValidator 0).AddressToIsValidatorIndex =
        getAddressMapping wKeccak wValidator.addr addressToIsValidatorSlot ∧
      (getStorageIndexes wKeccak wValidator 0).AddressToStakedAmountIndex =
        getAddressMapping wKeccak wValidator.addr addressToStakedAmountSlot ∧
      (getStorageIndexes wKeccak wValidator 0).AddressToValidatorIndexIndex =
        getAddressMapping wKeccak wValidator.addr addressToValidatorIndexSlot ∧
      (getStorageIndexes wKeccak wValidator 0).ValidatorBLSPublicKeyIndex =
        getAddressMapping wKeccak wValidator.addr addressToBLSPublicKeySlot ∧
      (getStorageIndexes wKeccak wValidator 0).ValidatorsIndex =
        getIndexWithOffset
          (wKeccak (padLeftOrTrim (natBytes validatorsSlot.natAbs) 32)) 0) ∧
    smGet (predeployStep wKeccak 3 [] (0, wValidator))
        (bytesToHash (getStorageIndexes wKeccak wValidator 0).ValidatorsIndex) =
      List.replicate 12 0 ++ wValidator.addr ∧
    smGet (predeployStep wKeccak 3 [] (0, wValidator))
        (bytesToHash (getStorageIndexes wKeccak wValidator 0).AddressToIsValidatorIndex) =
      natToHash 1 ∧
    smGet (predeployStep wKeccak 3 [] (0, wValidator))
        (bytesToHash (getStorageIndexes wKeccak wValidator 0).AddressToStakedAmountIndex) =
      natToHash 3 ∧
    smGet (predeployStep wKeccak 3 [] (0, wValidator))
        (bytesToHash (getStorageIndexes wKeccak wValidator 0).AddressToValidatorIndexIndex) =
      natToHash 0 ∧
    smMem (predeployStep wKeccak 3 [] (0, wValidator))
        (bytesToHash (getStorageIndexes wKeccak wValidator 0).ValidatorBLSPublicKeyIndex) =
      wValidator.blsPublicKey.isSome ∧
    (wValidator.blsPublicKey.isSome = true →
      smGet (predeployStep wKeccak 3 [] (0, wValidator))
          (bytesToHash (getStorageIndexes wKeccak wValidator 0).ValidatorBLSPublicKeyIndex) =
        smGet (setBytesToStorage wKeccak
          (smSet [] (bytesToHash (getStorageIndexes wKeccak wValidator 0).ValidatorsIndex)
            (bytesToHash wValidator.addr))
          (getStorageIndexes wKeccak wValidator 0).ValidatorBLSPublicKeyIndex
          (wValidator.blsPublicKey.getD [])) (bytesToHash
            (getStorageIndexes wKeccak wValidator 0).ValidatorBLSPublicKeyIndex))) :=
  ⟨by decide, by decide, by decide, by decide, by decide, by decide, by decide,
    by decide, by decide, by decide, by decide, by decide,
    claim_C1_validator_entries wKeccak wValidator 0 3 (by decide) (by decide)
      (by decide) (by decide) (by decide) (by decide) (by decide) (by decide)
      (by decide) (by decide) (by decide) (by decide)⟩
